import Mathlib

/-!
Shallow embedding of the certify certificate manager (Go) and proofs about it.

The definitions below are translated from the Go sources: the `Certify`
orchestrator (`keys.go` second document, i.e. the current certify.go),
`CertConfig.Clone` / `CertConfig.appendName` and the cache implementations
(`unnamed/part_016`, the current cache.go), the internal key marshaller
(`unnamed/part_024`), the Cloudflare Origin issuer (`unnamed/part_004`) and
the Vault issuer chain assembly (`issuers/vault/vault.go`).

Modelling conventions:
* Machine-level byte strings (DER blobs) are modelled by their parse outcome
  (`Der.parsed`); PEM encoding is modelled by tagged file contents.
* Time instants are integers; `time.Now().Before(t)` is strict `<`.
* Go errors are an inductive type with the distinguished `ErrCacheMiss`
  sentinel, mirroring the pointer-identity comparison `err != ErrCacheMiss`.
* Goroutine-plus-channel patterns whose claims are sequential are
  sequentialized: the goroutine body runs to completion, and the observation
  of context cancellation at each `select` is an explicit boolean input.
* The `singleflight` de-duplication and the logger are not involved in any
  claim settled here; the `DoChan` closure body is inlined (its effects are
  recorded in an explicit trace).
-/

namespace CertifyModel

/-- Parsed X.509 leaf data, the fields the manager reads
(`cert.Leaf.NotAfter`, `cert.Leaf.SerialNumber`). -/
structure Leaf where
  notAfter : Int
  serial : Nat
deriving DecidableEq, Repr

/-- A DER-encoded certificate blob, modelled by its parse outcome
(`x509.ParseCertificate` succeeds iff `parsed` is `some`). -/
structure Der where
  parsed : Option Leaf
deriving DecidableEq, Repr

/-- A Go `crypto.PrivateKey`: the key marshaller (`internal/keys.Marshal`)
distinguishes ECDSA and RSA keys from everything else. -/
inductive PrivKey where
  | ec (id : Nat)
  | rsa (id : Nat)
  | unsupported (id : Nat)
deriving DecidableEq, Repr

/-- `tls.Certificate`: the DER chain (leaf first), the private key, and the
optionally populated parsed leaf. -/
structure TLSCert where
  certificate : List Der
  privateKey : PrivKey
  leaf : Option Leaf
deriving DecidableEq, Repr

/-- Go `error` values relevant to the manager: the distinguished
`ErrCacheMiss` sentinel, a context cancellation error, or any other error
(identified by its message). -/
inductive GoErr where
  | cacheMiss
  | ctxCanceled
  | str (s : String)
deriving DecidableEq, Repr

instance {ε α : Type} [DecidableEq ε] [DecidableEq α] : DecidableEq (Except ε α) :=
  fun a b =>
    match a, b with
    | Except.ok x, Except.ok y =>
      if h : x = y then isTrue (by rw [h]) else isFalse (by simp [h])
    | Except.error x, Except.error y =>
      if h : x = y then isTrue (by rw [h]) else isFalse (by simp [h])
    | Except.ok _, Except.error _ => isFalse (by simp)
    | Except.error _, Except.ok _ => isFalse (by simp)

/-! ## Server-name normalization (`Certify.GetCertificate`) -/

/-- `strings.ToLower` restricted to ASCII (the Go function lower-cases
Unicode; every string in the claims is ASCII). -/
def goToLowerChar (c : Char) : Char :=
  if 'A' ≤ c ∧ c ≤ 'Z' then Char.ofNat (c.toNat + 32) else c

/-- `strings.TrimSuffix(s, ".")` on the character list: strips one trailing
dot when present. -/
def trimTrailingDot (cs : List Char) : List Char :=
  if cs.getLast? = some '.' then cs.dropLast else cs

/-! ## `net.ParseIP`

Model of Go `net.ParseIP` (the netip-based parser): the first of `.`, `:`
or `%` encountered selects IPv4 or IPv6 parsing (`%` and zone suffixes are
rejected by `net.ParseIP`). The result is the 16-byte representation, with
IPv4 addresses in v4-mapped form, matching `net.IP` equality. -/

/-- The 16-byte representation of a parsed IP address. -/
def GoIP := List Nat
deriving DecidableEq, Repr

/-- First occurrence of `.`, `:` or `%` in the string, which selects the
parser in `net.ParseIP`. -/
def firstIPSpecial : List Char → Option Char
  | [] => none
  | c :: cs => if c = '.' ∨ c = ':' ∨ c = '%' then some c else firstIPSpecial cs

/-- Split a character list on a separator character (like `strings.Split`
for a one-character separator). -/
def splitOnChar (sep : Char) : List Char → List (List Char)
  | [] => [[]]
  | c :: cs =>
    let r := splitOnChar sep cs
    if c = sep then [] :: r
    else
      match r with
      | [] => [[c]]
      | f :: rest => (c :: f) :: rest

def isAsciiDigit (c : Char) : Bool := '0' ≤ c ∧ c ≤ '9'

def isAsciiHexDigit (c : Char) : Bool :=
  isAsciiDigit c ∨ ('a' ≤ c ∧ c ≤ 'f') ∨ ('A' ≤ c ∧ c ≤ 'F')

def hexDigitVal (c : Char) : Nat :=
  if isAsciiDigit c then c.toNat - '0'.toNat
  else if 'a' ≤ c ∧ c ≤ 'f' then c.toNat - 'a'.toNat + 10
  else c.toNat - 'A'.toNat + 10

/-- One dotted-decimal IPv4 field: 1 to 3 digits, value at most 255, no
leading zero (Go rejects IPv4 fields with leading zeros). -/
def parseV4Field (cs : List Char) : Option Nat :=
  if cs = [] ∨ ¬ cs.all isAsciiDigit ∨ cs.length > 3 then none
  else if cs.length > 1 ∧ cs.head? = some '0' then none
  else
    let n := cs.foldl (fun n c => n * 10 + (c.toNat - '0'.toNat)) 0
    if n ≤ 255 then some n else none

/-- Dotted-decimal IPv4: exactly four valid fields. Returns the four octets. -/
def parseV4Quad (cs : List Char) : Option (Nat × Nat × Nat × Nat) :=
  match splitOnChar '.' cs with
  | [f1, f2, f3, f4] =>
    match parseV4Field f1, parseV4Field f2, parseV4Field f3, parseV4Field f4 with
    | some a, some b, some c, some d => some (a, b, c, d)
    | _, _, _, _ => none
  | _ => none

/-- The v4-mapped 16-byte form Go produces for IPv4 addresses. -/
def v4MappedBytes (a b c d : Nat) : GoIP :=
  [0, 0, 0, 0, 0, 0, 0, 0, 0, 0, 255, 255, a, b, c, d]

/-- One IPv6 group: 1 to 4 hex digits. -/
def parseHexGroup (cs : List Char) : Option Nat :=
  if cs = [] ∨ cs.length > 4 ∨ ¬ cs.all isAsciiHexDigit then none
  else some (cs.foldl (fun n c => n * 16 + hexDigitVal c) 0)

/-- Parse colon-separated IPv6 groups (no empty fields). When `allowV4` is
true the last field may be an embedded dotted-decimal IPv4 address, which
contributes two 16-bit groups. -/
def parseGroupFields (allowV4 : Bool) : List (List Char) → Option (List Nat)
  | [] => some []
  | [f] =>
    match parseHexGroup f with
    | some g => some [g]
    | none =>
      if allowV4 then
        match parseV4Quad f with
        | some (a, b, c, d) => some [a * 256 + b, c * 256 + d]
        | none => none
      else none
  | f :: f2 :: rest =>
    match parseHexGroup f, parseGroupFields allowV4 (f2 :: rest) with
    | some g, some gs => some (g :: gs)
    | _, _ => none

/-- Split on the first `::`, if any. -/
def splitOnDoubleColon : List Char → Option (List Char × List Char)
  | [] => none
  | [_] => none
  | a :: b :: rest =>
    if a = ':' ∧ b = ':' then some ([], rest)
    else
      match splitOnDoubleColon (b :: rest) with
      | some (l, r) => some (a :: l, r)
      | none => none

/-- 16-bit groups to bytes. -/
def groupsToBytes (gs : List Nat) : GoIP :=
  gs.foldr (fun g acc => g / 256 :: g % 256 :: acc) []

/-- IPv6 parsing: eight groups, or a single `::` standing for enough zero
groups (at least one), with an optional embedded IPv4 tail. Zones (`%`) are
rejected, as `net.ParseIP` does. -/
def parseV6 (cs : List Char) : Option GoIP :=
  if cs.contains '%' then none
  else
    match splitOnDoubleColon cs with
    | none =>
      match parseGroupFields true (splitOnChar ':' cs) with
      | some gs => if gs.length = 8 then some (groupsToBytes gs) else none
      | none => none
    | some (l, r) =>
      let lgs? := if l = [] then some [] else parseGroupFields false (splitOnChar ':' l)
      let rgs? := if r = [] then some [] else parseGroupFields true (splitOnChar ':' r)
      match lgs?, rgs? with
      | some lgs, some rgs =>
        if lgs.length + rgs.length ≤ 7 then
          some (groupsToBytes (lgs ++ List.replicate (8 - lgs.length - rgs.length) 0 ++ rgs))
        else none
      | _, _ => none

/-- Go `net.ParseIP`: `nil` is modelled as `none`. -/
def goParseIP (s : String) : Option GoIP :=
  match firstIPSpecial s.toList with
  | some '.' => (parseV4Quad s.toList).map (fun q => v4MappedBytes q.1 q.2.1 q.2.2.1 q.2.2.2)
  | some ':' => parseV6 s.toList
  | _ => none

/-- Outcome of the server-name validation and normalization performed at the
top of `Certify.GetCertificate`. -/
inductive NormResult where
  | invalid (msg : String)
  | ok (name : String)
deriving DecidableEq, Repr

/-- The normalization block of `Certify.GetCertificate`:
lower-case, reject empty, reject `/` or `\`, strip one trailing dot
(`strings.TrimSuffix`), then keep the portion before the first `:`
(`strings.Split(name, ":")[0]`), in exactly that order. -/
def normalizeServerName (serverName : String) : NormResult :=
  let cs := serverName.toList.map goToLowerChar
  if cs = [] then
    NormResult.invalid "missing server name"
  else if cs.any (fun c => c = '/' ∨ c = '\\') then
    NormResult.invalid "server name contains invalid character"
  else
    let cs2 := trimTrailingDot cs
    let cs3 := if cs2.contains ':' then cs2.takeWhile (fun c => c ≠ ':') else cs2
    NormResult.ok (String.mk cs3)

/-! ## `CertConfig` (`unnamed/part_016`, current certify.go document) -/

/-- The key generator capability; `init` installs the singleton P-256
generator when the config has none. -/
inductive KeyGen where
  | singletonECDSA
  | custom (id : Nat)
deriving DecidableEq, Repr

/-- `CertConfig`: DNS, IP and URI subject alternative names plus the key
generator. -/
structure CertConfig where
  subjectAlternativeNames : List String
  ipSubjectAlternativeNames : List GoIP
  uriSubjectAlternativeNames : List String
  keyGenerator : Option KeyGen
deriving DecidableEq, Repr

/-- The zero `CertConfig` (`new(CertConfig)`). -/
def CertConfig.zero : CertConfig := ⟨[], [], [], none⟩

/-- `CertConfig.Clone`: a nil receiver yields the zero config; otherwise
every field is copied. -/
def cloneConfig : Option CertConfig → CertConfig
  | none => CertConfig.zero
  | some cc =>
    { subjectAlternativeNames := cc.subjectAlternativeNames
      ipSubjectAlternativeNames := cc.ipSubjectAlternativeNames
      uriSubjectAlternativeNames := cc.uriSubjectAlternativeNames
      keyGenerator := cc.keyGenerator }

/-- `CertConfig.appendName`: names that `net.ParseIP` accepts go to the IP
SAN list, every other name to the DNS SAN list; the append is
unconditional. -/
def CertConfig.appendName (cc : CertConfig) (name : String) : CertConfig :=
  match goParseIP name with
  | some ip =>
    { cc with ipSubjectAlternativeNames := cc.ipSubjectAlternativeNames ++ [ip] }
  | none =>
    { cc with subjectAlternativeNames := cc.subjectAlternativeNames ++ [name] }

/-! ## The `Certify` manager (`keys.go` second document) -/

/-- The manager fields the settled claims depend on. Cache, issuer and
logger are supplied per call as an environment (they are interface values in
the source). -/
structure Certify where
  commonName : String
  renewBefore : Int
  certConfig : Option CertConfig
deriving DecidableEq, Repr

/-- `Certify.init`, restricted to its `CertConfig` effect: a nil config is
replaced by the zero config, and a nil `KeyGenerator` is set to the
singleton generator. When the caller supplied a config, the source performs
this assignment on the caller's own object (`c.CertConfig` is the caller's
pointer), so `initConfig (some cc)` is also the state of the caller's
config after the call. -/
def initConfig : Option CertConfig → CertConfig
  | none => { CertConfig.zero with keyGenerator := some KeyGen.singletonECDSA }
  | some cc =>
    if cc.keyGenerator = none then { cc with keyGenerator := some KeyGen.singletonECDSA }
    else cc

/-- The cert config built inside the `issueGroup.DoChan` closure:
clone the manager's config, append the identity, and append the common name
when it differs from the identity. -/
def mkIssueConf (c : Certify) (name : String) : CertConfig :=
  let conf := cloneConfig (some (initConfig c.certConfig))
  let conf := conf.appendName name
  if name ≠ c.commonName then conf.appendName c.commonName else conf

/-- Per-call environment: the outcome of `Cache.Get`, the issuer as a
function of the config it receives, and the outcome of `Cache.Put`. -/
structure IssueEnv where
  cacheGet : Except GoErr TLSCert
  issuerIssue : CertConfig → Except GoErr TLSCert
  cachePut : TLSCert → Except GoErr Unit

/-- Result of a manager call: a bundle, an error, or the nil-pointer panic
the source would hit dereferencing a missing `cert.Leaf`. -/
inductive MgrRes where
  | ok (cert : TLSCert)
  | err (e : GoErr)
  | panicNilLeaf
deriving DecidableEq, Repr

/-- Observable effects of one `getOrRenewCert` call. `certConfigAfter` is
the manager's stored config when the call returns (the source never writes
to `c.CertConfig` after `init`; SAN appends happen on the clone). -/
structure MgrTrace where
  cacheKey : Option String
  issuerCalled : Bool
  confPassed : Option CertConfig
  deleteCalled : Bool
  putAttempted : Bool
  putFailed : Bool
  certConfigAfter : CertConfig
deriving Repr

/-- The `issueGroup.DoChan` closure body: build the config, call the
issuer, and attempt the cache write, swallowing its error. The
`deleteCalled` flag records whether the eviction branch ran before
issuance. -/
def issuePath (c : Certify) (name : String) (env : IssueEnv) (deleted : Bool) :
    MgrRes × MgrTrace :=
  let conf := mkIssueConf c name
  match env.issuerIssue conf with
  | Except.error e =>
    (MgrRes.err e,
     ⟨some name, true, some conf, deleted, false, false, initConfig c.certConfig⟩)
  | Except.ok cert =>
    match cert.leaf with
    | none =>
      -- the success log line reads cert.Leaf.SerialNumber
      (MgrRes.panicNilLeaf,
       ⟨some name, true, some conf, deleted, false, false, initConfig c.certConfig⟩)
    | some _ =>
      match env.cachePut cert with
      | Except.error _ =>
        (MgrRes.ok cert,
         ⟨some name, true, some conf, deleted, true, true, initConfig c.certConfig⟩)
      | Except.ok _ =>
        (MgrRes.ok cert,
         ⟨some name, true, some conf, deleted, true, false, initConfig c.certConfig⟩)

/-- `Certify.getOrRenewCert`: consult the cache; on a hit return the bundle
when now is strictly before `NotAfter - RenewBefore`, otherwise evict and
issue; a miss issues; any other cache error is returned. -/
def getOrRenewCert (c : Certify) (now : Int) (name : String) (env : IssueEnv) :
    MgrRes × MgrTrace :=
  match env.cacheGet with
  | Except.ok cert =>
    match cert.leaf with
    | none =>
      -- cert.Leaf.NotAfter dereferences a nil Leaf
      (MgrRes.panicNilLeaf,
       ⟨some name, false, none, false, false, false, initConfig c.certConfig⟩)
    | some l =>
      if now < l.notAfter - c.renewBefore then
        (MgrRes.ok cert,
         ⟨some name, false, none, false, false, false, initConfig c.certConfig⟩)
      else
        issuePath c name env true
  | Except.error e =>
    if e = GoErr.cacheMiss then issuePath c name env false
    else
      (MgrRes.err e,
       ⟨some name, false, none, false, false, false, initConfig c.certConfig⟩)

/-- `Certify.GetCertificate`: normalize the requested server name, then run
`getOrRenewCert` with it. -/
def getCertificate (c : Certify) (now : Int) (serverName : String) (env : IssueEnv) :
    MgrRes × MgrTrace :=
  match normalizeServerName serverName with
  | NormResult.invalid msg =>
    (MgrRes.err (GoErr.str msg),
     ⟨none, false, none, false, false, false, initConfig c.certConfig⟩)
  | NormResult.ok name => getOrRenewCert c now name env

/-! ## In-memory cache (`memCache`, `unnamed/part_016`)

The Go map is modelled as an association list where an update shadows
earlier entries and a delete removes all entries for the key. -/

/-- `memCache.Get`: the stored bundle, or `ErrCacheMiss`. -/
def memGet (m : List (String × TLSCert)) (key : String) : Except GoErr TLSCert :=
  match m with
  | [] => Except.error GoErr.cacheMiss
  | (k, v) :: rest => if k = key then Except.ok v else memGet rest key

/-- `memCache.Put`: store the bundle under the key; never fails. -/
def memPut (m : List (String × TLSCert)) (key : String) (cert : TLSCert) :
    List (String × TLSCert) :=
  (key, cert) :: m

/-- Removal of every entry under a key from the association-list map. -/
def memDeleteList : List (String × TLSCert) → String → List (String × TLSCert)
  | [], _ => []
  | (k, v) :: rest, key =>
    if k = key then memDeleteList rest key else (k, v) :: memDeleteList rest key

/-- `memCache.Delete`: remove the key; the Go method always returns nil. -/
def memDelete (m : List (String × TLSCert)) (key : String) :
    (List (String × TLSCert)) × Except GoErr Unit :=
  (memDeleteList m key, Except.ok ())

/-! ## Filesystem cache (`DirCache`, `unnamed/part_016`)

The directory is a map from path to file content. PEM serialization is
modelled by the tagged `FileContent` constructors: a `.key` file holds the
marshalled private key, a `.crt` file the PEM-concatenated chain. -/

/-- Content of a file in the cache directory. -/
inductive FileContent where
  | keyPem (k : PrivKey)
  | certPem (chain : List Der)
deriving DecidableEq, Repr

def FS := List (String × FileContent)

/-- Read a path (shadowing association-list lookup). -/
def fsRead : FS → String → Option FileContent
  | [], _ => none
  | (q, c) :: rest, p => if q = p then some c else fsRead rest p

/-- Create or overwrite a file. -/
def fsWrite (fs : FS) (p : String) (c : FileContent) : FS :=
  (p, c) :: fs

/-- `os.Remove` when the target exists, no-op otherwise (callers in the
source swallow the not-exist error). -/
def fsRemove : FS → String → FS
  | [], _ => []
  | (q, c) :: rest, p =>
    if q = p then fsRemove rest p else (q, c) :: fsRemove rest p

/-- Whether the directory contains the path. -/
def fsHas (fs : FS) (p : String) : Bool :=
  (fsRead fs p).isSome

/-- `os.Rename`: fails when the source is absent (or when failure is
injected); on success the content moves to the destination. -/
def fsRename (fs : FS) (src dst : String) (fail : Bool) : FS × Except GoErr Unit :=
  if fail then (fs, Except.error (GoErr.str "rename"))
  else
    match fsRead fs src with
    | none => (fs, Except.error (GoErr.str "rename: no such file"))
    | some content => (fsWrite (fsRemove fs src) dst content, Except.ok ())

def keyExt : String := ".key"

def certExt : String := ".crt"

/-- `filepath.Join(string(d), name)`. -/
def filepathJoin (d name : String) : String := d ++ "/" ++ name

/-- `internal/keys.Marshal`: PEM-marshals ECDSA and RSA keys, errors on any
other key type. The PEM bytes are modelled by the key value itself. -/
def keysMarshal : PrivKey → Except GoErr PrivKey
  | PrivKey.ec n => Except.ok (PrivKey.ec n)
  | PrivKey.rsa n => Except.ok (PrivKey.rsa n)
  | PrivKey.unsupported _ => Except.error (GoErr.str "unsupported private key type")

/-- Failure and cancellation injections for one `DirCache.Put` call:
the random suffixes `ioutil.TempFile` appends to the two temp-file
prefixes, injected failures of temp-file creation and of the two renames,
and whether each of the two `select` statements observes the cancelled
context. -/
structure PutCtl where
  tmpKeySuf : String
  tmpCertSuf : String
  tempKeyCreateFail : Bool
  tempCertCreateFail : Bool
  renameKeyFail : Bool
  renameCertFail : Bool
  cancelledInner : Bool
  cancelledOuter : Bool
deriving DecidableEq, Repr

/-- The temp path `ioutil.TempFile(string(d), prefix+keyExt)` produces. -/
def tmpKeyPath (d name suf : String) : String :=
  filepathJoin d (name ++ keyExt ++ suf)

/-- The temp path `ioutil.TempFile(string(d), prefix+certExt)` produces. -/
def tmpCertPath (d name suf : String) : String :=
  filepathJoin d (name ++ certExt ++ suf)

/-- `DirCache.writeTempKey`: marshal the key, create the temp file, write
the PEM bytes. Returns the temp path. -/
def writeTempKey (d : String) (fs : FS) (ctl : PutCtl) (name : String)
    (cert : TLSCert) : FS × Except GoErr String :=
  match keysMarshal cert.privateKey with
  | Except.error e => (fs, Except.error e)
  | Except.ok pem =>
    if ctl.tempKeyCreateFail then (fs, Except.error (GoErr.str "tempfile"))
    else
      let p := tmpKeyPath d name ctl.tmpKeySuf
      (fsWrite fs p (FileContent.keyPem pem), Except.ok p)

/-- `DirCache.writeTempCert`: create the temp file, PEM-encode every chain
element into it. Returns the temp path. -/
def writeTempCert (d : String) (fs : FS) (ctl : PutCtl) (name : String)
    (cert : TLSCert) : FS × Except GoErr String :=
  if ctl.tempCertCreateFail then (fs, Except.error (GoErr.str "tempfile"))
  else
    let p := tmpCertPath d name ctl.tmpCertSuf
    (fsWrite fs p (FileContent.certPem cert.certificate), Except.ok p)

/-- `DirCache.writeTempFiles`: key first, then cert. -/
def writeTempFiles (d : String) (fs : FS) (ctl : PutCtl) (name : String)
    (cert : TLSCert) : FS × Except GoErr (String × String) :=
  match writeTempKey d fs ctl name cert with
  | (fs1, Except.error e) => (fs1, Except.error e)
  | (fs1, Except.ok kp) =>
    match writeTempCert d fs1 ctl name cert with
    | (fs2, Except.error e) => (fs2, Except.error e)
    | (fs2, Except.ok cp) => (fs2, Except.ok (kp, cp))

/-- Result of a `DirCache.Put`: the directory afterwards and the returned
error. -/
structure PutOut where
  fs : FS
  res : Except GoErr Unit

/-- `DirCache.Put` (`unnamed/part_016`). The goroutine re-declares
`tmpKey, tmpCert` with a fresh `var` statement, so the outer variables the
cleanup block reads keep their zero value `""`; the cleanup therefore
removes the empty path twice and the two final paths, never the actual
temp files. When the outer `select` observes cancellation, the function
returns `ctx.Err()` before the cleanup block runs at all. -/
def dirPut (d : String) (fs0 : FS) (ctl : PutCtl) (name : String)
    (cert : TLSCert) : PutOut :=
  let newName := filepathJoin d name
  -- outer tmpKey / tmpCert, never assigned because of the shadowing
  let outerTmpKey := ""
  let outerTmpCert := ""
  -- goroutine body, sequentialized
  let step :=
    match writeTempFiles d fs0 ctl name cert with
    | (fs1, Except.error e) => (fs1, some e)
    | (fs1, Except.ok (tk, tc)) =>
      if ctl.cancelledInner then (fs1, none)
      else
        match fsRename fs1 tk (newName ++ keyExt) ctl.renameKeyFail with
        | (fs2, Except.error e) => (fs2, some e)
        | (fs2, Except.ok _) =>
          match fsRename fs2 tc (newName ++ certExt) ctl.renameCertFail with
          | (fs3, Except.error e) => (fs3, some e)
          | (fs3, Except.ok _) => (fs3, none)
  let fs1 := step.1
  if ctl.cancelledOuter then ⟨fs1, Except.error GoErr.ctxCanceled⟩
  else
    match step.2 with
    | none => ⟨fs1, Except.ok ()⟩
    | some e =>
      let fs2 := fsRemove fs1 outerTmpKey
      let fs3 := fsRemove fs2 outerTmpCert
      let fs4 := fsRemove fs3 (newName ++ keyExt)
      let fs5 := fsRemove fs4 (newName ++ certExt)
      ⟨fs5, Except.error e⟩

/-- `DirCache.Get` (`unnamed/part_016`): `tls.LoadX509KeyPair` on
`<key>.crt` / `<key>.key`, then parse the leaf and attach it. A missing
file maps to `ErrCacheMiss`; a cancelled context returns `ctx.Err()`. -/
def dirGet (d : String) (fs : FS) (cancelled : Bool) (name : String) :
    Except GoErr TLSCert :=
  let path := filepathJoin d name
  if cancelled then Except.error GoErr.ctxCanceled
  else
    match fsRead fs (path ++ certExt), fsRead fs (path ++ keyExt) with
    | none, _ => Except.error GoErr.cacheMiss
    | some _, none => Except.error GoErr.cacheMiss
    | some (FileContent.certPem chain), some (FileContent.keyPem k) =>
      match chain with
      | [] => Except.error (GoErr.str "tls: no certificate PEM data")
      | d0 :: _ =>
        match d0.parsed with
        | none => Except.error (GoErr.str "x509: malformed certificate")
        | some l => Except.ok ⟨chain, k, some l⟩
    | some _, some _ => Except.error (GoErr.str "tls: malformed cache files")

/-- `DirCache.Delete` (`unnamed/part_016`): remove both files via
`removeWrapErr`, which swallows not-exist errors; a cancelled context
returns `ctx.Err()` (the removals still ran in the goroutine). -/
def dirDelete (d : String) (fs : FS) (cancelled : Bool) (name : String) :
    FS × Except GoErr Unit :=
  let path := filepathJoin d name
  let fs1 := fsRemove fs (path ++ keyExt)
  let fs2 := fsRemove fs1 (path ++ certExt)
  if cancelled then (fs2, Except.error GoErr.ctxCanceled) else (fs2, Except.ok ())

/-! ## Issuer backends: chain assembly -/

/-- `tls.X509KeyPair`: fails when the certificate PEM has no block or the
leaf does not parse (it is parsed to check the key); leaves `Leaf` nil.
The key/leaf match check is abstracted away. -/
def x509KeyPair (chain : List Der) (key : PrivKey) : Except GoErr TLSCert :=
  match chain with
  | [] => Except.error (GoErr.str "tls: no certificate PEM data")
  | d0 :: _ =>
    match d0.parsed with
    | none => Except.error (GoErr.str "x509: malformed certificate")
    | some _ => Except.ok ⟨chain, key, none⟩

/-- The parse of the first chain element (`x509.ParseCertificate
(tlsCert.Certificate[0])`). -/
def parseLeafOfChain (chain : List Der) : Option Leaf :=
  match chain with
  | [] => none
  | d0 :: _ => d0.parsed

/-- The built-in Cloudflare RSA root appended for `origin-rsa`. -/
def cloudflareRSARoot : Der := ⟨some ⟨0, 900001⟩⟩

/-- The built-in Cloudflare ECC root appended for `origin-ecc`. -/
def cloudflareECCRoot : Der := ⟨some ⟨0, 900002⟩⟩

/-- The chain `cforigin.Issuer.Issue` assembles from the API response:
the returned certificate PEM, plus the matching built-in root for the two
known request types; the `default` switch case appends nothing. -/
def cforiginAssembleChain (respCert : List Der) (requestType : String) : List Der :=
  if requestType = "origin-rsa" then respCert ++ [cloudflareRSARoot]
  else if requestType = "origin-ecc" then respCert ++ [cloudflareECCRoot]
  else respCert

/-- The shared issuance tail `tls.X509KeyPair` / `x509.ParseCertificate`
of both backends: pair the chain with the key and attach the parsed leaf. -/
def finishIssue (chain : List Der) (key : PrivKey) : Except GoErr TLSCert :=
  match x509KeyPair chain key with
  | Except.error e => Except.error e
  | Except.ok tlsCert => Except.ok { tlsCert with leaf := parseLeafOfChain chain }

/-- `cforigin.Issuer.Issue` from the signing response onwards: assemble the
chain, pair it with the generated key, parse and attach the leaf. -/
def cforiginIssue (respCert : List Der) (requestType : String) (key : PrivKey) :
    Except GoErr TLSCert :=
  finishIssue (cforiginAssembleChain respCert requestType) key

/-- The fields of the Vault secret's `Data` that the issuer reads:
`certificate`, and optionally `ca_chain` (a list of PEM strings) or
`issuing_ca` (one PEM string). -/
structure VaultSecretData where
  certificate : List Der
  caChain : Option (List (List Der))
  issuingCA : Option (List Der)
deriving Repr

/-- The chain `vault.Issuer.Issue` assembles: the certificate PEM, then
every `ca_chain` entry when that key is present, else `issuing_ca` when
present, else nothing. -/
def vaultAssembleChain (dta : VaultSecretData) : List Der :=
  match dta.caChain with
  | some entries => dta.certificate ++ entries.flatten
  | none =>
    match dta.issuingCA with
    | some ca => dta.certificate ++ ca
    | none => dta.certificate

/-- `vault.Issuer.Issue` from the signing response onwards. -/
def vaultIssue (dta : VaultSecretData) (key : PrivKey) : Except GoErr TLSCert :=
  finishIssue (vaultAssembleChain dta) key

/-! ## Concrete fixtures used by witnesses and counterexamples -/

/-- A parsed leaf expiring at time 100. -/
def leaf1 : Leaf := ⟨100, 1⟩

/-- A DER blob that parses to `leaf1`. -/
def derLeaf1 : Der := ⟨some leaf1⟩

/-- A well-formed bundle: one-element chain, EC key, populated leaf. -/
def certOK : TLSCert := ⟨[derLeaf1], PrivKey.ec 1, some leaf1⟩

/-- A bundle whose `Leaf` was never populated. -/
def certNoLeaf : TLSCert := ⟨[derLeaf1], PrivKey.ec 1, none⟩

/-- A manager with renewal window 10 and no explicit config. -/
def certifyA : Certify := ⟨"cn.example", 10, none⟩

/-- Environment: cache hit with `certOK`, issuer and put succeed. -/
def envHit : IssueEnv := ⟨Except.ok certOK, fun _ => Except.ok certOK, fun _ => Except.ok ()⟩

/-- Environment: cache miss, issuer succeeds, put succeeds. -/
def envMiss : IssueEnv :=
  ⟨Except.error GoErr.cacheMiss, fun _ => Except.ok certOK, fun _ => Except.ok ()⟩

/-- Environment: cache miss, issuer succeeds, put fails. -/
def envMissPutFail : IssueEnv :=
  ⟨Except.error GoErr.cacheMiss, fun _ => Except.ok certOK,
   fun _ => Except.error (GoErr.str "disk full")⟩

/-- Environment: the cache read fails with an error other than the miss
sentinel. -/
def envGetIOErr : IssueEnv :=
  ⟨Except.error (GoErr.str "io"), fun _ => Except.ok certOK, fun _ => Except.ok ()⟩

/-- A manager whose common name is an IP literal and whose caller-supplied
config already lists the identity as a DNS SAN. -/
def certifyC2 : Certify := ⟨"8.8.8.8", 0, some ⟨["dup.example"], [], [], none⟩⟩

/-- The config the issuer receives in the C2 counterexample run. -/
def confC2 : CertConfig := mkIssueConf certifyC2 "dup.example"

/-- Injections for a `DirCache.Put` whose first rename fails. -/
def ctlRenameKeyFails : PutCtl := ⟨"123", "456", false, false, true, false, false, false⟩

/-- Injections for a `DirCache.Put` that observes a cancelled context at
both `select` statements. -/
def ctlCancelled : PutCtl := ⟨"123", "456", false, false, false, false, true, true⟩

/-- Injection-free `DirCache.Put` control. -/
def ctlClean : PutCtl := ⟨"1", "2", false, false, false, false, false, false⟩

/-- A directory holding a well-formed pair for key `k`. -/
def fsPair : FS :=
  [("d/k" ++ certExt, FileContent.certPem [derLeaf1]),
   ("d/k" ++ keyExt, FileContent.keyPem (PrivKey.ec 1))]

/-- A caller-supplied config with no key generator. -/
def configNoKG : CertConfig := ⟨["a.example"], [], [], none⟩

/-- A DER blob for a CA certificate. -/
def derCA : Der := ⟨some ⟨0, 2⟩⟩

/-- A Vault response carrying `issuing_ca` and no `ca_chain`. -/
def vaultData1 : VaultSecretData := ⟨[derLeaf1], none, some [derCA]⟩

/-- The bundle the Cloudflare backend produces for `origin-rsa` on a
single-certificate response. -/
def certC3rsa : TLSCert := ⟨[derLeaf1, cloudflareRSARoot], PrivKey.ec 1, some leaf1⟩

/-- The bundle the Vault backend produces for `vaultData1`. -/
def certC3vault : TLSCert := ⟨[derLeaf1, derCA], PrivKey.ec 1, some leaf1⟩

end CertifyModel

namespace CertifyModel

/-! ## Helper lemmas -/

theorem issuePath_trace (c : Certify) (name : String) (env : IssueEnv) (deleted : Bool) :
    (issuePath c name env deleted).2.issuerCalled = true ∧
    (issuePath c name env deleted).2.deleteCalled = deleted ∧
    (issuePath c name env deleted).2.confPassed = some (mkIssueConf c name) ∧
    (issuePath c name env deleted).2.cacheKey = some name ∧
    (issuePath c name env deleted).2.certConfigAfter = initConfig c.certConfig := by
  unfold issuePath
  cases h : env.issuerIssue (mkIssueConf c name) with
  | error e => simp [h]
  | ok cert =>
    cases hl : cert.leaf with
    | none => simp [h, hl]
    | some l =>
      cases hp : env.cachePut cert with
      | error e2 => simp [h, hl, hp]
      | ok u => simp [h, hl, hp]

theorem getOrRenewCert_cacheKey (c : Certify) (now : Int) (name : String) (env : IssueEnv) :
    (getOrRenewCert c now name env).2.cacheKey = some name := by
  unfold getOrRenewCert
  cases h : env.cacheGet with
  | error e =>
    by_cases he : e = GoErr.cacheMiss
    · simp [h, he, (issuePath_trace c name env false).2.2.2.1]
    · simp [h, he]
  | ok cert =>
    cases hl : cert.leaf with
    | none => simp [h, hl]
    | some l =>
      by_cases ht : now < l.notAfter - c.renewBefore
      · simp [h, hl, ht]
      · simp [h, hl, ht, (issuePath_trace c name env true).2.2.2.1]

theorem getOrRenewCert_confPassed (c : Certify) (now : Int) (name : String)
    (env : IssueEnv) (conf : CertConfig)
    (h : (getOrRenewCert c now name env).2.confPassed = some conf) :
    conf = mkIssueConf c name := by
  unfold getOrRenewCert at h
  cases hg : env.cacheGet with
  | error e =>
    by_cases he : e = GoErr.cacheMiss
    · simp only [hg, he] at h
      simp at h
      rw [(issuePath_trace c name env false).2.2.1] at h
      exact (Option.some_inj.mp h).symm
    · simp [hg, he] at h
  | ok cert =>
    cases hl : cert.leaf with
    | none => simp [hg, hl] at h
    | some l =>
      by_cases ht : now < l.notAfter - c.renewBefore
      · simp [hg, hl, ht] at h
      · simp only [hg, hl] at h
        simp [ht] at h
        rw [(issuePath_trace c name env true).2.2.1] at h
        exact (Option.some_inj.mp h).symm

theorem getOrRenewCert_configAfter (c : Certify) (now : Int) (name : String)
    (env : IssueEnv) :
    (getOrRenewCert c now name env).2.certConfigAfter = initConfig c.certConfig := by
  unfold getOrRenewCert
  cases h : env.cacheGet with
  | error e =>
    by_cases he : e = GoErr.cacheMiss
    · simp [h, he, (issuePath_trace c name env false).2.2.2.2]
    · simp [h, he]
  | ok cert =>
    cases hl : cert.leaf with
    | none => simp [h, hl]
    | some l =>
      by_cases ht : now < l.notAfter - c.renewBefore
      · simp [h, hl, ht]
      · simp [h, hl, ht, (issuePath_trace c name env true).2.2.2.2]

theorem appendName_self_dns (cc : CertConfig) (name : String)
    (h : goParseIP name = none) :
    name ∈ (cc.appendName name).subjectAlternativeNames := by
  unfold CertConfig.appendName
  rw [h]
  simp

theorem appendName_self_ip (cc : CertConfig) (name : String) (ip : GoIP)
    (h : goParseIP name = some ip) :
    ip ∈ (cc.appendName name).ipSubjectAlternativeNames := by
  unfold CertConfig.appendName
  rw [h]
  simp

theorem appendName_mono_dns (cc : CertConfig) (x y : String)
    (h : x ∈ cc.subjectAlternativeNames) :
    x ∈ (cc.appendName y).subjectAlternativeNames := by
  unfold CertConfig.appendName
  cases goParseIP y with
  | none => simp [h]
  | some ip => simpa using h

theorem appendName_mono_ip (cc : CertConfig) (ip : GoIP) (y : String)
    (h : ip ∈ cc.ipSubjectAlternativeNames) :
    ip ∈ (cc.appendName y).ipSubjectAlternativeNames := by
  unfold CertConfig.appendName
  cases goParseIP y with
  | none => simpa using h
  | some ip2 => simp [h]

theorem mkIssueConf_mem_dns (c : Certify) (name : String)
    (h : goParseIP name = none) :
    name ∈ (mkIssueConf c name).subjectAlternativeNames := by
  unfold mkIssueConf
  by_cases hn : name ≠ c.commonName
  · simp only [if_pos hn]
    exact appendName_mono_dns _ _ _ (appendName_self_dns _ _ h)
  · simp only [if_neg hn]
    exact appendName_self_dns _ _ h

theorem mkIssueConf_mem_ip (c : Certify) (name : String) (ip : GoIP)
    (h : goParseIP name = some ip) :
    ip ∈ (mkIssueConf c name).ipSubjectAlternativeNames := by
  unfold mkIssueConf
  by_cases hn : name ≠ c.commonName
  · simp only [if_pos hn]
    exact appendName_mono_ip _ _ _ (appendName_self_ip _ _ _ h)
  · simp only [if_neg hn]
    exact appendName_self_ip _ _ _ h

theorem mkIssueConf_mem_cn_dns (c : Certify) (name : String)
    (hne : c.commonName ≠ name) (h : goParseIP c.commonName = none) :
    c.commonName ∈ (mkIssueConf c name).subjectAlternativeNames := by
  unfold mkIssueConf
  rw [if_pos (Ne.symm hne)]
  exact appendName_self_dns _ _ h

theorem mkIssueConf_mem_cn_ip (c : Certify) (name : String) (ip : GoIP)
    (hne : c.commonName ≠ name) (h : goParseIP c.commonName = some ip) :
    ip ∈ (mkIssueConf c name).ipSubjectAlternativeNames := by
  unfold mkIssueConf
  rw [if_pos (Ne.symm hne)]
  exact appendName_self_ip _ _ _ h

theorem fsRead_write_same (fs : FS) (p : String) (c : FileContent) :
    fsRead (fsWrite fs p c) p = some c := by
  simp [fsRead, fsWrite]

theorem fsRead_write_ne (fs : FS) (p q : String) (c : FileContent) (h : p ≠ q) :
    fsRead (fsWrite fs p c) q = fsRead fs q := by
  simp [fsRead, fsWrite, h]

theorem fsRead_remove_same (fs : FS) (p : String) :
    fsRead (fsRemove fs p) p = none := by
  induction fs with
  | nil => rfl
  | cons e rest ih =>
    obtain ⟨q, c⟩ := e
    by_cases h : q = p
    · simpa [fsRemove, h] using ih
    · simpa [fsRemove, fsRead, h] using ih

theorem fsRead_remove_ne (fs : FS) (p q : String) (h : p ≠ q) :
    fsRead (fsRemove fs p) q = fsRead fs q := by
  induction fs with
  | nil => rfl
  | cons e rest ih =>
    obtain ⟨r, c⟩ := e
    by_cases hr : r = p
    · subst hr
      simpa [fsRemove, fsRead, h] using ih
    · simp [fsRemove, fsRead, hr]
      by_cases hq : r = q
      · simp [hq]
      · simpa [hq] using ih

theorem memGet_deleteList (m : List (String × TLSCert)) (key : String) :
    memGet (memDeleteList m key) key = Except.error GoErr.cacheMiss := by
  induction m with
  | nil => rfl
  | cons e rest ih =>
    obtain ⟨k, v⟩ := e
    by_cases h : k = key
    · simpa [memDeleteList, h] using ih
    · simpa [memDeleteList, memGet, h] using ih

theorem x509KeyPair_ok (chain : List Der) (key : PrivKey) (t : TLSCert)
    (h : x509KeyPair chain key = Except.ok t) :
    t = ⟨chain, key, none⟩ ∧ parseLeafOfChain chain ≠ none := by
  unfold x509KeyPair at h
  cases chain with
  | nil => simp at h
  | cons d0 rest =>
    cases hp : d0.parsed with
    | none => simp [hp] at h
    | some l =>
      simp [hp] at h
      exact ⟨h.symm, by simp [parseLeafOfChain, hp]⟩

theorem finishIssue_ok (chain : List Der) (key : PrivKey) (cert : TLSCert)
    (h : finishIssue chain key = Except.ok cert) :
    cert.certificate = chain ∧ cert.privateKey = key ∧
    cert.leaf = parseLeafOfChain chain ∧ cert.leaf ≠ none := by
  unfold finishIssue at h
  cases hx : x509KeyPair chain key with
  | error e => simp [hx] at h
  | ok t =>
    simp [hx] at h
    obtain ⟨ht, hp⟩ := x509KeyPair_ok chain key t hx
    subst ht
    rw [← h]
    exact ⟨rfl, rfl, rfl, hp⟩

theorem char_toNat_ofNat_lt (n : Nat) (h : n < 55296) : (Char.ofNat n).toNat = n := by
  have hv : n.isValidChar := Or.inl h
  simp [Char.ofNat, hv]
  rfl

theorem goToLowerChar_keeps_slash (c : Char) :
    (goToLowerChar c = '/' → c = '/') ∧ (goToLowerChar c = '\\' → c = '\\') := by
  unfold goToLowerChar
  by_cases hu : 'A' ≤ c ∧ c ≤ 'Z'
  · rw [if_pos hu]
    have h1 : (65 : Nat) ≤ c.toNat := hu.1
    have h2 : c.toNat ≤ 90 := hu.2
    have h3 : (Char.ofNat (c.toNat + 32)).toNat = c.toNat + 32 :=
      char_toNat_ofNat_lt _ (by omega)
    constructor <;> intro he <;> exfalso
    · rw [he] at h3
      have h4 : ('/').toNat = 47 := rfl
      rw [h4] at h3
      omega
    · rw [he] at h3
      have h4 : ('\\').toNat = 92 := rfl
      rw [h4] at h3
      omega
  · rw [if_neg hu]
    exact ⟨id, id⟩

theorem map_goToLowerChar_any_slash (l : List Char)
    (h : ∀ ch ∈ l, ¬ (ch = '/' ∨ ch = '\\')) :
    (l.map goToLowerChar).any (fun c => c = '/' ∨ c = '\\') = false := by
  induction l with
  | nil => rfl
  | cons a t ih =>
    simp only [List.map_cons, List.any_cons, Bool.or_eq_false_iff]
    constructor
    · have ha := h a (List.mem_cons_self _ _)
      simp only [decide_eq_false_iff_not]
      intro hcon
      rcases hcon with h1 | h1
      · exact ha (Or.inl ((goToLowerChar_keeps_slash a).1 h1))
      · exact ha (Or.inr ((goToLowerChar_keeps_slash a).2 h1))
    · exact ih (fun ch hch => h ch (List.mem_cons_of_mem _ hch))

theorem trimTrailingDot_colon (cs : List Char) :
    ∃ ys, trimTrailingDot (':' :: cs) = ':' :: ys := by
  unfold trimTrailingDot
  by_cases h : (':' :: cs).getLast? = some '.'
  · rw [if_pos h]
    cases cs with
    | nil => simp at h
    | cons a t => exact ⟨(a :: t).dropLast, rfl⟩
  · rw [if_neg h]
    exact ⟨cs, rfl⟩

theorem normalizeServerName_colon (s : String) (t : List Char)
    (ht : s.toList = ':' :: t)
    (hslash : ∀ ch ∈ s.toList, ¬ (ch = '/' ∨ ch = '\\')) :
    normalizeServerName s = NormResult.ok "" := by
  have hg : goToLowerChar ':' = ':' := rfl
  have hany := map_goToLowerChar_any_slash s.toList hslash
  rw [ht, List.map_cons, hg] at hany
  obtain ⟨ys, hys⟩ := trimTrailingDot_colon (t.map goToLowerChar)
  unfold normalizeServerName
  rw [ht, List.map_cons, hg]
  simp [hany, hys, List.takeWhile_cons]
  intro x hx
  have hs2 := hslash x (by rw [ht]; exact List.mem_cons_of_mem _ hx)
  constructor
  · intro hcon
    exact hs2 (Or.inl ((goToLowerChar_keeps_slash x).1 hcon))
  · intro hcon
    exact hs2 (Or.inr ((goToLowerChar_keeps_slash x).2 hcon))

theorem issuePath_ok_leaf (c : Certify) (name : String) (env : IssueEnv) (b : Bool)
    (cert : TLSCert) (h : (issuePath c name env b).1 = MgrRes.ok cert) :
    cert.leaf ≠ none := by
  unfold issuePath at h
  cases hi : env.issuerIssue (mkIssueConf c name) with
  | error e => simp only [hi] at h; simp at h
  | ok cert2 =>
    simp only [hi] at h
    cases hl : cert2.leaf with
    | none => simp only [hl] at h; simp at h
    | some l =>
      simp only [hl] at h
      cases hp : env.cachePut cert2 with
      | error e =>
        simp only [hp] at h
        simp at h
        rw [← h, hl]
        simp
      | ok u =>
        simp only [hp] at h
        simp at h
        rw [← h, hl]
        simp

theorem getOrRenewCert_ok_leaf (c : Certify) (now : Int) (name : String)
    (env : IssueEnv) (cert : TLSCert)
    (h : (getOrRenewCert c now name env).1 = MgrRes.ok cert) :
    cert.leaf ≠ none := by
  unfold getOrRenewCert at h
  cases hg : env.cacheGet with
  | error e =>
    by_cases he : e = GoErr.cacheMiss
    · simp only [hg, he] at h
      simp at h
      exact issuePath_ok_leaf c name env false cert h
    · simp [hg, he] at h
  | ok cert2 =>
    cases hl : cert2.leaf with
    | none => simp [hg, hl] at h
    | some l =>
      by_cases ht : now < l.notAfter - c.renewBefore
      · simp [hg, hl, ht] at h
        rw [← h, hl]
        simp
      · simp only [hg, hl] at h
        simp [ht] at h
        exact issuePath_ok_leaf c name env true cert h

/-! ## Claim theorems -/

/-- C1: when the cache returns a bundle for the requested identity,
`getOrRenewCert` returns that bundle without calling the issuer exactly
when now is strictly before `leaf.notAfter - renewBefore`; otherwise it
deletes the cache entry and proceeds to issuance. -/
theorem c1_cache_hit_renewal_policy (c : Certify) (now : Int) (name : String)
    (env : IssueEnv) (cert : TLSCert) (l : Leaf)
    (hget : env.cacheGet = Except.ok cert) (hleaf : cert.leaf = some l) :
    (((getOrRenewCert c now name env).1 = MgrRes.ok cert ∧
      (getOrRenewCert c now name env).2.issuerCalled = false ∧
      (getOrRenewCert c now name env).2.deleteCalled = false)
      ↔ now < l.notAfter - c.renewBefore) ∧
    (l.notAfter - c.renewBefore ≤ now →
      (getOrRenewCert c now name env).2.deleteCalled = true ∧
      (getOrRenewCert c now name env).2.issuerCalled = true) := by
  constructor
  · constructor
    · intro hh
      by_contra ht
      have hcall : (getOrRenewCert c now name env).2.issuerCalled = true := by
        unfold getOrRenewCert
        simp [hget, hleaf, ht, (issuePath_trace c name env true).1]
      rw [hh.2.1] at hcall
      exact Bool.false_ne_true hcall
    · intro ht
      unfold getOrRenewCert
      simp [hget, hleaf, ht]
  · intro ht
    have ht2 : ¬ now < l.notAfter - c.renewBefore := not_lt.mpr ht
    unfold getOrRenewCert
    simp [hget, hleaf, ht2, (issuePath_trace c name env true).1,
      (issuePath_trace c name env true).2.1]

/-- C1 witness: at time 5 a bundle expiring at 100 with renewal window 10
is served from the cache; at time 95 it is evicted and reissued. -/
theorem c1_cache_hit_renewal_policy_witness :
    ((getOrRenewCert certifyA 5 "w.example" envHit).1 = MgrRes.ok certOK ∧
     (getOrRenewCert certifyA 5 "w.example" envHit).2.issuerCalled = false) ∧
    ((getOrRenewCert certifyA 95 "w.example" envHit).2.deleteCalled = true ∧
     (getOrRenewCert certifyA 95 "w.example" envHit).2.issuerCalled = true) := by
  have h5 := (c1_cache_hit_renewal_policy certifyA 5 "w.example" envHit certOK leaf1
    rfl rfl).1.mpr (by decide)
  have h95 := (c1_cache_hit_renewal_policy certifyA 95 "w.example" envHit certOK leaf1
    rfl rfl).2 (by decide)
  exact ⟨⟨h5.1, h5.2.1⟩, h95⟩

/-- C5: the manager recovers exactly the cache-miss sentinel (it then
issues); any other cache read error is returned without calling the
issuer; a cache write failure after successful issuance is swallowed and
the fresh bundle is still returned. -/
theorem c5_error_propagation (c : Certify) (now : Int) (name : String) (env : IssueEnv) :
    (env.cacheGet = Except.error GoErr.cacheMiss →
      (getOrRenewCert c now name env).2.issuerCalled = true) ∧
    (∀ e, env.cacheGet = Except.error e → e ≠ GoErr.cacheMiss →
      (getOrRenewCert c now name env).1 = MgrRes.err e ∧
      (getOrRenewCert c now name env).2.issuerCalled = false) ∧
    (∀ cert l perr, env.cacheGet = Except.error GoErr.cacheMiss →
      env.issuerIssue (mkIssueConf c name) = Except.ok cert → cert.leaf = some l →
      env.cachePut cert = Except.error perr →
      (getOrRenewCert c now name env).1 = MgrRes.ok cert ∧
      (getOrRenewCert c now name env).2.putFailed = true) := by
  refine ⟨?_, ?_, ?_⟩
  · intro hm
    unfold getOrRenewCert
    simp [hm, (issuePath_trace c name env false).1]
  · intro e he hne
    unfold getOrRenewCert
    simp [he, hne]
  · intro cert l perr hm hi hl hp
    unfold getOrRenewCert issuePath
    simp [hm, hi, hl, hp]

/-- C5 witness: a miss issues; an IO read error surfaces without issuance;
a failed put is swallowed and the fresh bundle returned. -/
theorem c5_error_propagation_witness :
    (getOrRenewCert certifyA 0 "w.example" envMiss).2.issuerCalled = true ∧
    ((getOrRenewCert certifyA 0 "w.example" envGetIOErr).1 = MgrRes.err (GoErr.str "io") ∧
     (getOrRenewCert certifyA 0 "w.example" envGetIOErr).2.issuerCalled = false) ∧
    ((getOrRenewCert certifyA 0 "w.example" envMissPutFail).1 = MgrRes.ok certOK ∧
     (getOrRenewCert certifyA 0 "w.example" envMissPutFail).2.putFailed = true) :=
  ⟨(c5_error_propagation certifyA 0 "w.example" envMiss).1 rfl,
   (c5_error_propagation certifyA 0 "w.example" envGetIOErr).2.1 (GoErr.str "io")
     rfl (by decide),
   (c5_error_propagation certifyA 0 "w.example" envMissPutFail).2.2 certOK leaf1
     (GoErr.str "disk full") rfl rfl rfl rfl⟩

/-- C2 counterexample: with the identity already listed in the caller's DNS
SANs it is appended again (count 2), and an IP-form common name is appended
to the IP SAN list, not the DNS SAN list. -/
theorem c2_counterexample :
    (getOrRenewCert certifyC2 0 "dup.example" envMiss).2.confPassed = some confC2 ∧
    confC2.subjectAlternativeNames = ["dup.example", "dup.example"] ∧
    confC2.ipSubjectAlternativeNames = [v4MappedBytes 8 8 8 8] ∧
    ¬ "8.8.8.8" ∈ confC2.subjectAlternativeNames := by
  refine ⟨rfl, by decide, by decide, by decide⟩

/-- C2 amended: the config handed to the issuer always contains the
identity in the SAN list matching its IP parse (appended unconditionally),
and the common name, when different from the identity, in the list
matching its own IP parse. -/
theorem c2_amended_san_membership (c : Certify) (now : Int) (name : String)
    (env : IssueEnv) (conf : CertConfig)
    (h : (getOrRenewCert c now name env).2.confPassed = some conf) :
    (goParseIP name = none → name ∈ conf.subjectAlternativeNames) ∧
    (∀ ip, goParseIP name = some ip → ip ∈ conf.ipSubjectAlternativeNames) ∧
    (c.commonName ≠ name → goParseIP c.commonName = none →
      c.commonName ∈ conf.subjectAlternativeNames) ∧
    (∀ ip, c.commonName ≠ name → goParseIP c.commonName = some ip →
      ip ∈ conf.ipSubjectAlternativeNames) := by
  have hc := getOrRenewCert_confPassed c now name env conf h
  subst hc
  exact ⟨mkIssueConf_mem_dns c name,
    fun ip hip => mkIssueConf_mem_ip c name ip hip,
    fun hne hp => mkIssueConf_mem_cn_dns c name hne hp,
    fun ip hne hip => mkIssueConf_mem_cn_ip c name ip hne hip⟩

/-- C2 amended witness: the DNS identity is in the DNS SAN list and the
IP-form common name is in the IP SAN list of the issued config. -/
theorem c2_amended_san_membership_witness :
    "dup.example" ∈ confC2.subjectAlternativeNames ∧
    v4MappedBytes 8 8 8 8 ∈ confC2.ipSubjectAlternativeNames :=
  ⟨(c2_amended_san_membership certifyC2 0 "dup.example" envMiss confC2 rfl).1 rfl,
   (c2_amended_san_membership certifyC2 0 "dup.example" envMiss confC2 rfl).2.2.2
     (v4MappedBytes 8 8 8 8) (by decide) (by decide)⟩

/-- C4 counterexample: the trailing dot is stripped before the port, so
`"HOST.example.:443"` normalizes to `"host.example."`, not
`"host.example"`. -/
theorem c4_counterexample :
    normalizeServerName "HOST.example.:443" = NormResult.ok "host.example." ∧
    normalizeServerName "HOST.example.:443" ≠ NormResult.ok "host.example" :=
  ⟨by decide, by decide⟩

/-- C4 amended: `"HOST.example.:443"` normalizes to `"host.example."`
(lower-cased, dot before the colon kept because the single trailing-dot
strip runs before port stripping), and that string is the cache key and is
appended to the DNS SAN list. -/
theorem c4_amended_normalization (c : Certify) (now : Int) (env : IssueEnv) :
    normalizeServerName "HOST.example.:443" = NormResult.ok "host.example." ∧
    (getCertificate c now "HOST.example.:443" env).2.cacheKey = some "host.example." ∧
    (∀ conf, (getCertificate c now "HOST.example.:443" env).2.confPassed = some conf →
      "host.example." ∈ conf.subjectAlternativeNames) := by
  have hn : normalizeServerName "HOST.example.:443" = NormResult.ok "host.example." := by
    decide
  refine ⟨hn, ?_, ?_⟩
  · unfold getCertificate
    rw [hn]
    exact getOrRenewCert_cacheKey c now "host.example." env
  · intro conf hconf
    unfold getCertificate at hconf
    rw [hn] at hconf
    have hc := getOrRenewCert_confPassed c now "host.example." env conf hconf
    subst hc
    exact mkIssueConf_mem_dns c "host.example." (by decide)

/-- C4 amended witness. -/
theorem c4_amended_normalization_witness :
    "host.example." ∈ (mkIssueConf certifyA "host.example.").subjectAlternativeNames :=
  (c4_amended_normalization certifyA 0 envMiss).2.2
    (mkIssueConf certifyA "host.example.") rfl

/-- C10 counterexample: `":a/b"` begins with a colon (the colon precedes
any other name character), yet it fails the invalid-character check —
which runs before port stripping, on the whole name — so it never reaches
identity derivation, contradicting the claim that every such name passes
the checks. -/
theorem c10_counterexample :
    (":a/b").toList.head? = some ':' ∧
    normalizeServerName ":a/b" =
      NormResult.invalid "server name contains invalid character" ∧
    (getCertificate certifyA 0 ":a/b" envMiss).1 =
      MgrRes.err (GoErr.str "server name contains invalid character") := by
  decide

/-- C10 amended: every server name that begins with a colon and contains
neither slash nor backslash passes the empty-name and invalid-character
checks (done before port stripping) and derives the empty string as
identity, which becomes the cache key and is appended to the DNS SAN list
as an empty name. -/
theorem c10_colon_first_empty_identity (s : String) (c : Certify) (now : Int)
    (env : IssueEnv)
    (hhead : s.toList.head? = some ':')
    (hslash : ∀ ch ∈ s.toList, ¬ (ch = '/' ∨ ch = '\\')) :
    normalizeServerName s = NormResult.ok "" ∧
    (getCertificate c now s env).2.cacheKey = some "" ∧
    (∀ conf, (getCertificate c now s env).2.confPassed = some conf →
      "" ∈ conf.subjectAlternativeNames) := by
  obtain ⟨t, ht⟩ : ∃ t, s.toList = ':' :: t := by
    cases hs : s.toList with
    | nil => rw [hs] at hhead; simp at hhead
    | cons a t2 =>
      rw [hs] at hhead
      simp only [List.head?_cons, Option.some.injEq] at hhead
      exact ⟨t2, by rw [hhead]⟩
  have hn := normalizeServerName_colon s t ht hslash
  refine ⟨hn, ?_, ?_⟩
  · unfold getCertificate
    rw [hn]
    exact getOrRenewCert_cacheKey c now "" env
  · intro conf hconf
    unfold getCertificate at hconf
    rw [hn] at hconf
    have hc := getOrRenewCert_confPassed c now "" env conf hconf
    subst hc
    exact mkIssueConf_mem_dns c "" (by decide)

/-- C10 amended witness, at the IPv6 literal `"::1"`. -/
theorem c10_colon_first_empty_identity_witness :
    normalizeServerName "::1" = NormResult.ok "" ∧
    "" ∈ (mkIssueConf certifyA "").subjectAlternativeNames := by
  have h := c10_colon_first_empty_identity "::1" certifyA 0 envMiss
    (by decide) (by decide)
  exact ⟨h.1, h.2.2 (mkIssueConf certifyA "") rfl⟩

/-- C9 counterexample: `init` sets the `KeyGenerator` field of a
caller-supplied config whose generator is nil — the source performs this
assignment on the caller's own object, which is therefore observed
mutated after the call. -/
theorem c9_counterexample :
    configNoKG.keyGenerator = none ∧
    initConfig (some configNoKG) ≠ configNoKG ∧
    (initConfig (some configNoKG)).keyGenerator = some KeyGen.singletonECDSA := by
  decide

/-- C9 amended: `init` changes no field of a caller-supplied config other
than a nil `KeyGenerator`; a config with a generator is untouched; and
`getOrRenewCert` never writes to the manager's stored config — the SAN
appends happen on the clone handed to the issuer. -/
theorem c9_amended_config_frame (cc : CertConfig) :
    (initConfig (some cc)).subjectAlternativeNames = cc.subjectAlternativeNames ∧
    (initConfig (some cc)).ipSubjectAlternativeNames = cc.ipSubjectAlternativeNames ∧
    (initConfig (some cc)).uriSubjectAlternativeNames = cc.uriSubjectAlternativeNames ∧
    (cc.keyGenerator ≠ none → initConfig (some cc) = cc) ∧
    (∀ c now name env, c.certConfig = some cc →
      (getOrRenewCert c now name env).2.certConfigAfter = initConfig (some cc)) := by
  refine ⟨?_, ?_, ?_, ?_, ?_⟩
  · by_cases h : cc.keyGenerator = none <;> simp [initConfig, h]
  · by_cases h : cc.keyGenerator = none <;> simp [initConfig, h]
  · by_cases h : cc.keyGenerator = none <;> simp [initConfig, h]
  · intro h
    simp [initConfig, h]
  · intro c now name env hc
    rw [getOrRenewCert_configAfter c now name env, hc]

/-- C9 amended witness. -/
theorem c9_amended_config_frame_witness :
    (initConfig (some configNoKG)).subjectAlternativeNames = ["a.example"] ∧
    (getOrRenewCert ⟨"cn.example", 10, some configNoKG⟩ 0 "w.example" envMiss).2.certConfigAfter =
      initConfig (some configNoKG) :=
  ⟨(c9_amended_config_frame configNoKG).1,
   (c9_amended_config_frame configNoKG).2.2.2.2
     ⟨"cn.example", 10, some configNoKG⟩ 0 "w.example" envMiss rfl⟩

/-- C8 counterexample: the in-memory cache returns exactly the stored
bundle, so storing a bundle without a parsed leaf makes a successful Get
return a bundle with `leaf = none`. -/
theorem c8_counterexample :
    memGet (memPut [] "k" certNoLeaf) "k" = Except.ok certNoLeaf ∧
    certNoLeaf.leaf = none := by
  decide

/-- C8 amended: the filesystem cache attaches a parsed leaf on every
successful Get; the in-memory cache returns the stored bundle unchanged,
so its Gets return populated leaves whenever every stored bundle has one
(as manager-issued bundles do). -/
theorem c8_amended_leaf_populated :
    (∀ d fs cancelled name cert, dirGet d fs cancelled name = Except.ok cert →
      cert.leaf ≠ none) ∧
    (∀ m key cert, (∀ p, p ∈ m → (p.2 : TLSCert).leaf ≠ none) →
      memGet m key = Except.ok cert → cert.leaf ≠ none) := by
  constructor
  · intro d fs cancelled name cert h
    unfold dirGet at h
    cases cancelled with
    | true => simp at h
    | false =>
      simp only [Bool.false_eq_true, if_false] at h
      cases h1 : fsRead fs (filepathJoin d name ++ certExt) with
      | none => rw [h1] at h; simp at h
      | some c1 =>
        cases h2 : fsRead fs (filepathJoin d name ++ keyExt) with
        | none => rw [h1, h2] at h; simp at h
        | some c2 =>
          rw [h1, h2] at h
          cases c1 with
          | keyPem k1 => simp at h
          | certPem chain =>
            cases c2 with
            | certPem ch2 => simp at h
            | keyPem k =>
              cases chain with
              | nil => simp at h
              | cons d0 rest =>
                simp only [] at h
                cases hp : d0.parsed with
                | none => rw [hp] at h; simp at h
                | some l =>
                  rw [hp] at h
                  simp at h
                  rw [← h]
                  simp
  · intro m key cert hall h
    induction m with
    | nil => simp [memGet] at h
    | cons p rest ih =>
      obtain ⟨k, v⟩ := p
      unfold memGet at h
      by_cases hk : k = key
      · rw [if_pos hk] at h
        have hv : v = cert := by simpa using h
        subst hv
        exact hall (k, v) (List.mem_cons_self _ _)
      · rw [if_neg hk] at h
        exact ih (fun q hq => hall q (List.mem_cons_of_mem _ hq)) h

/-- C8 amended witness. -/
theorem c8_amended_leaf_populated_witness :
    dirGet "d" fsPair false "k" = Except.ok ⟨[derLeaf1], PrivKey.ec 1, some leaf1⟩ ∧
    (⟨[derLeaf1], PrivKey.ec 1, some leaf1⟩ : TLSCert).leaf ≠ none ∧
    certOK.leaf ≠ none := by
  refine ⟨by decide, ?_, ?_⟩
  · exact c8_amended_leaf_populated.1 "d" fsPair false "k"
      ⟨[derLeaf1], PrivKey.ec 1, some leaf1⟩ (by decide)
  · exact c8_amended_leaf_populated.2 [("k", certOK)] "k" certOK (by decide) (by decide)

/-- C3 counterexample: for an unrecognized `request_type` the Cloudflare
backend returns a successfully issued bundle whose chain has length 1,
not at least 2. -/
theorem c3_counterexample :
    cforiginIssue [derLeaf1] "v2" (PrivKey.ec 1) = Except.ok certOK ∧
    certOK.certificate.length = 1 := by
  decide

/-- C3 amended: every bundle the manager returns carries a non-null
parsed leaf (every successful return path matched on `cert.Leaf` first),
and every bundle the backends successfully issue does too; the Cloudflare
chain has length at least 2 exactly for the two known request types
(given a nonempty response certificate) and is the leaf-only response
otherwise; the Vault chain is the response certificate plus `ca_chain` or
`issuing_ca` content, so it has length at least 2 when `issuing_ca` is
present and nonempty. -/
theorem c3_amended_chain_assembly :
    (∀ c now name env cert,
      (getOrRenewCert c now name env).1 = MgrRes.ok cert → cert.leaf ≠ none) ∧
    (∀ resp rt key cert, cforiginIssue resp rt key = Except.ok cert →
      cert.leaf ≠ none ∧
      ((rt = "origin-rsa" ∨ rt = "origin-ecc") → resp ≠ [] →
        2 ≤ cert.certificate.length) ∧
      (rt ≠ "origin-rsa" → rt ≠ "origin-ecc" → cert.certificate = resp)) ∧
    (∀ dta key cert, vaultIssue dta key = Except.ok cert →
      cert.leaf ≠ none ∧ cert.certificate = vaultAssembleChain dta ∧
      (∀ ca, dta.caChain = none → dta.issuingCA = some ca → ca ≠ [] →
        dta.certificate ≠ [] → 2 ≤ cert.certificate.length)) := by
  refine ⟨?_, ?_, ?_⟩
  · intro c now name env cert h
    exact getOrRenewCert_ok_leaf c now name env cert h
  · intro resp rt key cert h
    obtain ⟨hcert, _, _, hleaf⟩ := finishIssue_ok _ _ _ h
    refine ⟨hleaf, ?_, ?_⟩
    · intro hrt hresp
      have h1 : 1 ≤ resp.length := List.length_pos.mpr hresp
      rw [hcert]
      rcases hrt with h2 | h2
      · subst h2
        unfold cforiginAssembleChain
        rw [if_pos rfl]
        simp
        omega
      · subst h2
        unfold cforiginAssembleChain
        rw [if_neg (by decide), if_pos rfl]
        simp
        omega
    · intro h1 h2
      rw [hcert]
      simp [cforiginAssembleChain, h1, h2]
  · intro dta key cert h
    obtain ⟨hcert, hkey2, hleaf2, hleaf⟩ := finishIssue_ok _ _ _ h
    refine ⟨hleaf, hcert, ?_⟩
    intro ca hchain hca hcane hcertne
    have h1 : 1 ≤ dta.certificate.length := List.length_pos.mpr hcertne
    have h2 : 1 ≤ ca.length := List.length_pos.mpr hcane
    simp [hcert, vaultAssembleChain, hchain, hca]
    omega

/-- C3 amended witness: a manager-returned bundle has a non-null leaf;
`origin-rsa` yields a two-element chain with a parsed leaf; Vault with
`issuing_ca` yields a two-element chain. -/
theorem c3_amended_chain_assembly_witness :
    certOK.leaf ≠ none ∧
    cforiginIssue [derLeaf1] "origin-rsa" (PrivKey.ec 1) = Except.ok certC3rsa ∧
    certC3rsa.leaf ≠ none ∧ 2 ≤ certC3rsa.certificate.length ∧
    vaultIssue vaultData1 (PrivKey.ec 1) = Except.ok certC3vault ∧
    2 ≤ certC3vault.certificate.length := by
  refine ⟨?_, by decide, ?_, ?_, by decide, ?_⟩
  · exact c3_amended_chain_assembly.1 certifyA 0 "w.example" envMiss certOK rfl
  · exact (c3_amended_chain_assembly.2.1 [derLeaf1] "origin-rsa" (PrivKey.ec 1)
      certC3rsa (by decide)).1
  · exact (c3_amended_chain_assembly.2.1 [derLeaf1] "origin-rsa" (PrivKey.ec 1)
      certC3rsa (by decide)).2.1 (Or.inl rfl) (by decide)
  · exact (c3_amended_chain_assembly.2.2 vaultData1 (PrivKey.ec 1)
      certC3vault (by decide)).2.2 [derCA] rfl rfl (by decide) (by decide)

/-- C6: concrete evaluation of `DirCache.Put` exhibiting the cleanup bug.
When the first rename fails, the returned error is the rename error but
both temporary files remain in the directory (the cleanup removed the
shadowed-away empty paths and the two final paths only); when the context
is cancelled, the call returns `ctx.Err()` before the cleanup block and
both temporary files likewise remain. -/
theorem c6_put_leaves_artifacts :
    ((dirPut "d" [] ctlRenameKeyFails "n" certOK).res =
        Except.error (GoErr.str "rename") ∧
      fsHas (dirPut "d" [] ctlRenameKeyFails "n" certOK).fs
        (tmpKeyPath "d" "n" "123") = true ∧
      fsHas (dirPut "d" [] ctlRenameKeyFails "n" certOK).fs
        (tmpCertPath "d" "n" "456") = true ∧
      fsHas (dirPut "d" [] ctlRenameKeyFails "n" certOK).fs
        (filepathJoin "d" "n" ++ keyExt) = false ∧
      fsHas (dirPut "d" [] ctlRenameKeyFails "n" certOK).fs
        (filepathJoin "d" "n" ++ certExt) = false) ∧
    ((dirPut "d" [] ctlCancelled "n" certOK).res = Except.error GoErr.ctxCanceled ∧
      fsHas (dirPut "d" [] ctlCancelled "n" certOK).fs
        (tmpKeyPath "d" "n" "123") = true ∧
      fsHas (dirPut "d" [] ctlCancelled "n" certOK).fs
        (tmpCertPath "d" "n" "456") = true) := by
  decide

/-- C7: cache algebra. For the in-memory cache unconditionally, and for
the filesystem cache under an injection-free put of a well-formed bundle
(marshalable key, leaf equal to the parse of the chain head) with fresh
temp-file names: a Get right after Put returns the stored bundle; a Get
after Put then Delete reports the distinguished miss; Delete always
succeeds, in particular on absent keys. -/
theorem c7_cache_algebra :
    (∀ m key v, memGet (memPut m key v) key = Except.ok v) ∧
    (∀ m key v, memGet (memDelete (memPut m key v) key).1 key =
      Except.error GoErr.cacheMiss) ∧
    (∀ m key, (memDelete m key).2 = Except.ok ()) ∧
    (∀ d fs key, (dirDelete d fs false key).2 = Except.ok ()) ∧
    (∀ d fs key v l sufK sufC,
      keysMarshal v.privateKey = Except.ok v.privateKey →
      parseLeafOfChain v.certificate = some l →
      v.leaf = some l →
      tmpKeyPath d key sufK ≠ tmpCertPath d key sufC →
      tmpKeyPath d key sufK ≠ filepathJoin d key ++ keyExt →
      tmpKeyPath d key sufK ≠ filepathJoin d key ++ certExt →
      tmpCertPath d key sufC ≠ filepathJoin d key ++ keyExt →
      tmpCertPath d key sufC ≠ filepathJoin d key ++ certExt →
      filepathJoin d key ++ keyExt ≠ filepathJoin d key ++ certExt →
      (dirPut d fs ⟨sufK, sufC, false, false, false, false, false, false⟩ key v).res =
        Except.ok () ∧
      dirGet d (dirPut d fs ⟨sufK, sufC, false, false, false, false, false, false⟩ key v).fs
        false key = Except.ok v ∧
      dirGet d (dirDelete d
          (dirPut d fs ⟨sufK, sufC, false, false, false, false, false, false⟩ key v).fs
          false key).1 false key = Except.error GoErr.cacheMiss) := by
  refine ⟨?_, ?_, ?_, ?_, ?_⟩
  · intro m key v
    simp [memGet, memPut]
  · intro m key v
    exact memGet_deleteList (memPut m key v) key
  · intro m key
    rfl
  · intro d fs key
    rfl
  · intro d fs key v l sufK sufC hm hl hleaf h1 h2 h3 h4 h5 h6
    obtain ⟨vc, vk, vl⟩ := v
    simp only at hm hl hleaf
    cases vc with
    | nil => simp [parseLeafOfChain] at hl
    | cons d0 rest =>
      simp only [parseLeafOfChain] at hl
      subst hleaf
      refine ⟨?_, ?_, ?_⟩ <;>
        simp [dirPut, writeTempFiles, writeTempKey, writeTempCert, fsRename,
          dirGet, dirDelete, hm, hl,
          fsRead_write_same, fsRead_write_ne, fsRead_remove_same, fsRead_remove_ne,
          h1, h2, h3, h4, h5, h6,
          Ne.symm h1, Ne.symm h2, Ne.symm h3, Ne.symm h4, Ne.symm h5, Ne.symm h6]

/-- C7 witness: the laws evaluated at a concrete directory, key and
well-formed bundle. -/
theorem c7_cache_algebra_witness :
    memGet (memPut [] "k" certOK) "k" = Except.ok certOK ∧
    memGet (memDelete (memPut [] "k" certOK) "k").1 "k" =
      Except.error GoErr.cacheMiss ∧
    (dirDelete "d" [] false "absent").2 = Except.ok () ∧
    (dirPut "d" [] ctlClean "k" certOK).res = Except.ok () ∧
    dirGet "d" (dirPut "d" [] ctlClean "k" certOK).fs false "k" = Except.ok certOK ∧
    dirGet "d" (dirDelete "d" (dirPut "d" [] ctlClean "k" certOK).fs false "k").1
      false "k" = Except.error GoErr.cacheMiss := by
  have hdir := c7_cache_algebra.2.2.2.2 "d" [] "k" certOK leaf1 "1" "2"
    rfl (by decide) rfl (by decide) (by decide) (by decide) (by decide) (by decide)
    (by decide)
  exact ⟨c7_cache_algebra.1 [] "k" certOK,
    c7_cache_algebra.2.1 [] "k" certOK,
    c7_cache_algebra.2.2.2.1 "d" [] "absent",
    hdir.1, hdir.2.1, hdir.2.2⟩

end CertifyModel
